import Mathlib

/-!
# Verification of the `neuralecology` simple occupancy notebook

A shallow embedding of `notebooks/simple-occupancy.ipynb`: a single-species,
single-season neural occupancy model.  The notebook simulates site covariates,
latent occupancy states and binomial detection counts, defines a small neural
network producing occupancy probability `psi` and detection probability `p`,
and trains it with the marginal negative log-likelihood.

Real tensor entries are modelled as real numbers (`ℝ`); the notebook's
single-column tensors become lists of per-site records; the pseudo-random
source is modelled as an explicit stream of reals consumed at fixed indices.
-/

open Real

namespace Occupancy

/-! ## Marginal likelihood evaluator (training-loop cell)

The notebook computes, for a minibatch with model outputs `psi_i`, `p_i` and
observed counts `y_i`:

* `y_dist_if_present = Binomial(total_count=k, probs=p_i)` and
  `lp_present = torch.log(psi_i) + y_dist_if_present.log_prob(y_i)`;
* `lp_maybe_absent = torch.logsumexp(cat((lp_present, log(1 - psi_i)), dim=1), dim=1)`;
* masks `definitely_present = (y_i > 0)`, `maybe_absent = (y_i == 0)` as floats;
* `log_prob = definitely_present * lp_present + maybe_absent * lp_maybe_absent`;
* `loss = -torch.mean(log_prob)`.
-/

/-- The binomial log-probability mass function used by
`torch.distributions.binomial.Binomial(total_count=k, probs=p).log_prob(y)`:
`log C(k,y) + y*log p + (k-y)*log(1-p)` (the binomial coefficient is computed
there from log-gamma values; mathematically it is `Nat.choose`). -/
noncomputable def logBinomPMF (k y : ℕ) (p : ℝ) : ℝ :=
  Real.log (k.choose y) + y * Real.log p + ((k : ℝ) - y) * Real.log (1 - p)

/-- The quantity `lp_present` for one site: `torch.log(psi) + Binomial(k, p).log_prob(y)`. -/
noncomputable def lp_present (psi p : ℝ) (k y : ℕ) : ℝ :=
  Real.log psi + logBinomPMF k y p

/-- The reduction `torch.logsumexp` over the two concatenated columns, with the
maximum-subtraction stabilisation it performs:
`m + log (exp (a - m) + exp (b - m))` where `m = max a b`. -/
noncomputable def logsumexp2 (a b : ℝ) : ℝ :=
  max a b + Real.log (Real.exp (a - max a b) + Real.exp (b - max a b))

/-- The quantity `lp_maybe_absent` for one site:
`torch.logsumexp(cat((lp_present, torch.log(1 - psi)), dim=1), dim=1)`.
Note the first column is `lp_present` evaluated at the site's actual `y`. -/
noncomputable def lp_maybe_absent (psi p : ℝ) (k y : ℕ) : ℝ :=
  logsumexp2 (lp_present psi p k y) (Real.log (1 - psi))

/-- One site of a minibatch: the model outputs `psi`, `p` for that site and its
observed detection count `y`. -/
structure Site where
  psi : ℝ
  p : ℝ
  y : ℕ

/-- The float mask `definitely_present = (y_i > 0).to(dtype=float32)`. -/
noncomputable def dpMask (s : Site) : ℝ := if 0 < s.y then 1 else 0

/-- The float mask `maybe_absent = (y_i == 0).to(dtype=float32)`. -/
noncomputable def maMask (s : Site) : ℝ := if s.y = 0 then 1 else 0

/-- The quantity `lp_present` of one site record. -/
noncomputable def sitePresentLP (k : ℕ) (s : Site) : ℝ :=
  lp_present s.psi s.p k s.y

/-- The quantity `lp_maybe_absent` of one site record. -/
noncomputable def siteMaybeAbsentLP (k : ℕ) (s : Site) : ℝ :=
  lp_maybe_absent s.psi s.p k s.y

/-- The per-site masked log-likelihood
`definitely_present * lp_present + maybe_absent * lp_maybe_absent`
with all three factors taken at the same site. -/
noncomputable def siteLogProb (k : ℕ) (s : Site) : ℝ :=
  dpMask s * sitePresentLP k s + maMask s * siteMaybeAbsentLP k s

/-- Sum of the `log_prob` tensor the notebook actually builds.  In the code,
`lp_present` and the two masks have shape `(b,1)` while `lp_maybe_absent`
(after `logsumexp(..., dim=1)` without `keepdim`) has shape `(b,)`, so
`definitely_present * lp_present + maybe_absent * lp_maybe_absent` broadcasts
to a `(b,b)` matrix with entry `(i,j) = dp_i * a_i + ma_i * m_j`. -/
noncomputable def codeLogProbSum (k : ℕ) (sites : List Site) : ℝ :=
  (sites.map (fun si =>
    (sites.map (fun sj =>
      dpMask si * sitePresentLP k si + maMask si * siteMaybeAbsentLP k sj)).sum)).sum

/-- The loss `loss = -torch.mean(log_prob)`: the mean is over all `b * b` entries of the
broadcast matrix. -/
noncomputable def codeLoss (k : ℕ) (sites : List Site) : ℝ :=
  -(codeLogProbSum k sites) / ((sites.length : ℝ) * (sites.length : ℝ))

/-- The loss the spec describes: negative arithmetic mean, over exactly the
sites of the minibatch, of the per-site masked log-likelihoods. -/
noncomputable def specLoss (k : ℕ) (sites : List Site) : ℝ :=
  -((sites.map (siteLogProb k)).sum) / (sites.length : ℝ)

/-! ## Helper lemmas about the evaluator -/

/-- The stabilised two-term log-sum-exp equals the naive `log (exp a + exp b)`. -/
theorem logsumexp2_eq (a b : ℝ) : logsumexp2 a b = Real.log (Real.exp a + Real.exp b) := by
  unfold logsumexp2
  rw [Real.exp_sub, Real.exp_sub, div_add_div_same,
    Real.log_div (by positivity) (Real.exp_ne_zero _), Real.log_exp]
  ring

/-- Exponentiating `lp_present` recovers `psi * C(k,y) * p^y * (1-p)^(k-y)`. -/
theorem exp_lp_present (psi p : ℝ) (k y : ℕ) (hpsi : 0 < psi) (hp : 0 < p)
    (hp1 : p < 1) (hyk : y ≤ k) :
    Real.exp (lp_present psi p k y) =
      psi * (k.choose y : ℝ) * p ^ y * (1 - p) ^ (k - y) := by
  have hc : (0 : ℝ) < (k.choose y : ℝ) := by exact_mod_cast Nat.choose_pos hyk
  have h1p : (0 : ℝ) < 1 - p := by linarith
  unfold lp_present logBinomPMF
  rw [show ((k : ℝ) - y) = ((k - y : ℕ) : ℝ) by rw [Nat.cast_sub hyk]]
  rw [Real.exp_add, Real.exp_add, Real.exp_add, Real.exp_log hpsi, Real.exp_log hc,
    Real.exp_nat_mul, Real.exp_nat_mul, Real.exp_log hp, Real.exp_log h1p]
  ring

/-- The `y = 0` marginal branch, written without logs. -/
theorem lp_maybe_absent_zero (psi p : ℝ) (k : ℕ) (hpsi : 0 < psi) (hpsi1 : psi < 1)
    (hp : 0 < p) (hp1 : p < 1) :
    lp_maybe_absent psi p k 0 = Real.log (psi * (1 - p) ^ k + (1 - psi)) := by
  have h1psi : (0 : ℝ) < 1 - psi := by linarith
  unfold lp_maybe_absent
  rw [logsumexp2_eq, exp_lp_present psi p k 0 hpsi hp hp1 (Nat.zero_le k),
    Real.exp_log h1psi]
  norm_num

/-! ## C2: the `y > 0` branch of the evaluator -/

/-- C2: for every site with `psi, p ∈ (0,1)`, trial count `k`, and observed
count `y` with `0 < y ≤ k`, the evaluator's per-site log-likelihood (the
mask-weighted combination, taken per site) equals
`log psi + logBinomPMF(y; k, p)`. -/
theorem per_site_loglik_present (psi p : ℝ) (k y : ℕ)
    (hpsi : 0 < psi) (hpsi1 : psi < 1) (hp : 0 < p) (hp1 : p < 1)
    (hy : 0 < y) (hyk : y ≤ k) :
    siteLogProb k ⟨psi, p, y⟩ = Real.log psi + logBinomPMF k y p := by
  unfold siteLogProb dpMask maMask sitePresentLP siteMaybeAbsentLP
  simp [hy, Nat.pos_iff_ne_zero.mp hy, lp_present]

/-- Witness for C2 at `psi = p = 1/2`, `k = 2`, `y = 1`. -/
theorem per_site_loglik_present_witness :
    siteLogProb 2 ⟨1/2, 1/2, 1⟩ = Real.log (1/2) + logBinomPMF 2 1 (1/2) :=
  per_site_loglik_present (1/2) (1/2) 2 1 (by norm_num) (by norm_num)
    (by norm_num) (by norm_num) (by norm_num) (by norm_num)

/-! ## C3: the `y = 0` branch equals the naive direct computation -/

/-- C3: for `psi, p ∈ (0,1)` and observed count `y = 0`, the evaluator's
stable log-sum-exp path equals the naive direct value
`log (psi * (1-p)^k + (1-psi))`. -/
theorem lp_maybe_absent_eq_naive (psi p : ℝ) (k : ℕ)
    (hpsi : 0 < psi) (hpsi1 : psi < 1) (hp : 0 < p) (hp1 : p < 1) :
    lp_maybe_absent psi p k 0 = Real.log (psi * (1 - p) ^ k + (1 - psi)) :=
  lp_maybe_absent_zero psi p k hpsi hpsi1 hp hp1

/-- Witness for C3 at `psi = p = 1/2`, `k = 3`. -/
theorem lp_maybe_absent_eq_naive_witness :
    lp_maybe_absent (1/2) (1/2) 3 0 = Real.log ((1/2) * (1 - 1/2) ^ 3 + (1 - 1/2)) :=
  lp_maybe_absent_eq_naive (1/2) (1/2) 3 (by norm_num) (by norm_num)
    (by norm_num) (by norm_num)

/-! ## C4: the per-count probabilities sum to one -/

/-- C4: for fixed `psi, p ∈ (0,1)` and `k ≥ 1`, the per-count probabilities
defined by the evaluator (the exponentials of its per-site log-likelihoods)
sum to one over the observable counts `y = 0, ..., k`. -/
theorem sum_site_probs_eq_one (psi p : ℝ) (k : ℕ) (hk : 1 ≤ k)
    (hpsi : 0 < psi) (hpsi1 : psi < 1) (hp : 0 < p) (hp1 : p < 1) :
    ∑ y in Finset.range (k + 1), Real.exp (siteLogProb k ⟨psi, p, y⟩) = 1 := by
  have h1p : (0 : ℝ) < 1 - p := by linarith
  have h1psi : (0 : ℝ) < 1 - psi := by linarith
  have hf0 : Real.exp (siteLogProb k ⟨psi, p, 0⟩) = psi * (1 - p) ^ k + (1 - psi) := by
    have hpos : (0 : ℝ) < psi * (1 - p) ^ k + (1 - psi) := by positivity
    have hm : siteLogProb k ⟨psi, p, 0⟩ = lp_maybe_absent psi p k 0 := by
      simp [siteLogProb, dpMask, maMask, sitePresentLP, siteMaybeAbsentLP]
    rw [hm, lp_maybe_absent_zero psi p k hpsi hpsi1 hp hp1, Real.exp_log hpos]
  have hfpos : ∀ i ∈ Finset.range k,
      Real.exp (siteLogProb k ⟨psi, p, i + 1⟩) =
        psi * ((k.choose (i + 1) : ℝ) * (p ^ (i + 1) * (1 - p) ^ (k - (i + 1)))) := by
    intro i hi
    have hik : i + 1 ≤ k := Finset.mem_range.mp hi
    have hm : siteLogProb k ⟨psi, p, i + 1⟩ = lp_present psi p k (i + 1) := by
      simp [siteLogProb, dpMask, maMask, sitePresentLP, siteMaybeAbsentLP]
    rw [hm, exp_lp_present psi p k (i + 1) hpsi hp hp1 hik]
    ring
  rw [Finset.sum_range_succ', Finset.sum_congr rfl hfpos, hf0]
  have hB : ∑ y in Finset.range (k + 1),
      p ^ y * (1 - p) ^ (k - y) * (k.choose y : ℝ) = 1 := by
    have h := add_pow p (1 - p) k
    rw [show p + (1 - p) = 1 by ring, one_pow] at h
    exact h.symm
  rw [Finset.sum_range_succ'] at hB
  simp only [pow_zero, Nat.sub_zero, Nat.choose_zero_right, Nat.cast_one, one_mul,
    mul_one] at hB
  have hS : ∑ i in Finset.range k,
      psi * ((k.choose (i + 1) : ℝ) * (p ^ (i + 1) * (1 - p) ^ (k - (i + 1)))) =
        psi * ∑ i in Finset.range k,
          p ^ (i + 1) * (1 - p) ^ (k - (i + 1)) * (k.choose (i + 1) : ℝ) := by
    rw [Finset.mul_sum]
    exact Finset.sum_congr rfl (fun i _ => by ring)
  rw [hS]
  have hSval : ∑ i in Finset.range k,
      p ^ (i + 1) * (1 - p) ^ (k - (i + 1)) * (k.choose (i + 1) : ℝ) =
        1 - (1 - p) ^ k := by linarith
  rw [hSval]
  ring

/-- Witness for C4 at `psi = p = 1/2`, `k = 1`. -/
theorem sum_site_probs_eq_one_witness :
    ∑ y in Finset.range 2, Real.exp (siteLogProb 1 ⟨1/2, 1/2, y⟩) = 1 :=
  sum_site_probs_eq_one (1/2) (1/2) 1 (by norm_num) (by norm_num) (by norm_num)
    (by norm_num) (by norm_num)

/-! ## List-sum helpers for the batch loss -/

theorem sum_map_eq_of_eq {α : Type} (l : List α) (f g : α → ℝ)
    (h : ∀ x ∈ l, f x = g x) : (l.map f).sum = (l.map g).sum := by
  induction l with
  | nil => simp
  | cons a t ih =>
    simp only [List.map_cons, List.sum_cons]
    rw [h a (by simp), ih (fun x hx => h x (by simp [hx]))]

theorem sum_map_const {α : Type} (l : List α) (c : ℝ) :
    (l.map (fun _ => c)).sum = (l.length : ℝ) * c := by
  induction l with
  | nil => simp
  | cons a t ih =>
    simp only [List.map_cons, List.sum_cons, List.length_cons, ih]
    push_cast
    ring

theorem sum_map_mul_left {α : Type} (l : List α) (c : ℝ) (f : α → ℝ) :
    (l.map (fun x => c * f x)).sum = c * (l.map f).sum := by
  induction l with
  | nil => simp
  | cons a t ih =>
    simp only [List.map_cons, List.sum_cons, ih]
    ring

/-! ## C10: homogeneous minibatches -/

/-- C10: for a nonempty minibatch homogeneous in detection outcome, the loss
the code computes (broadcast matrix included) equals the negative mean over
the minibatch's sites of the corresponding per-site branch. -/
theorem homogeneous_batch_loss (k : ℕ) (sites : List Site) (hne : sites ≠ []) :
    ((∀ s ∈ sites, 0 < s.y) →
      codeLoss k sites = -((sites.map (sitePresentLP k)).sum) / (sites.length : ℝ)) ∧
    ((∀ s ∈ sites, s.y = 0) →
      codeLoss k sites = -((sites.map (siteMaybeAbsentLP k)).sum) / (sites.length : ℝ)) := by
  have hlen : (sites.length : ℝ) ≠ 0 := by
    exact_mod_cast (List.length_pos.mpr hne).ne'
  constructor
  · intro hall
    unfold codeLoss codeLogProbSum
    rw [sum_map_eq_of_eq sites _ (fun si => (sites.length : ℝ) * sitePresentLP k si)
      (fun si hsi => by
        have h1 : dpMask si = 1 := by simp [dpMask, hall si hsi]
        have h2 : maMask si = 0 := by
          simp [maMask, Nat.pos_iff_ne_zero.mp (hall si hsi)]
        rw [sum_map_eq_of_eq sites _ (fun _ => sitePresentLP k si)
          (fun sj _ => by rw [h1, h2]; ring), sum_map_const])]
    rw [sum_map_mul_left]
    field_simp
    ring
  · intro hall
    unfold codeLoss codeLogProbSum
    rw [sum_map_eq_of_eq sites _ (fun _ => (sites.map (siteMaybeAbsentLP k)).sum)
      (fun si hsi => by
        have h1 : dpMask si = 0 := by
          simp [dpMask, hall si hsi]
        have h2 : maMask si = 1 := by simp [maMask, hall si hsi]
        rw [sum_map_eq_of_eq sites _ (siteMaybeAbsentLP k)
          (fun sj _ => by rw [h1, h2]; ring)]), sum_map_const]
    field_simp
    ring

/-- Witness for C10: a singleton all-detected batch. -/
theorem homogeneous_batch_loss_witness :
    codeLoss 1 [⟨1/2, 1/2, 1⟩] =
      -((([⟨1/2, 1/2, 1⟩] : List Site).map (sitePresentLP 1)).sum) /
        (([⟨1/2, 1/2, 1⟩] : List Site).length : ℝ) :=
  (homogeneous_batch_loss 1 [⟨1/2, 1/2, 1⟩] (by simp)).1
    (fun s hs => by rw [List.mem_singleton] at hs; rw [hs]; norm_num)

/-! ## C1: the batch loss is NOT the per-site mean on mixed batches

Because `lp_maybe_absent` has shape `(b,)` while the masks and `lp_present`
have shape `(b,1)`, `log_prob` broadcasts to a `(b,b)` matrix and
`torch.mean` averages its `b*b` entries, mixing the marginal branch of one
site with the mask of another.  We exhibit a two-site minibatch on which the
computed loss differs from the negative per-site mean. -/

/-- Evaluation of the code's loss on a two-site minibatch. -/
theorem codeLoss_pair (k : ℕ) (s t : Site) :
    codeLoss k [s, t] =
      -((dpMask s * sitePresentLP k s + maMask s * siteMaybeAbsentLP k s) +
        (dpMask s * sitePresentLP k s + maMask s * siteMaybeAbsentLP k t) +
        ((dpMask t * sitePresentLP k t + maMask t * siteMaybeAbsentLP k s) +
         (dpMask t * sitePresentLP k t + maMask t * siteMaybeAbsentLP k t))) / 4 := by
  unfold codeLoss codeLogProbSum
  simp only [List.map_cons, List.map_nil, List.sum_cons, List.sum_nil, List.length_cons,
    List.length_nil]
  norm_num

/-- Evaluation of the spec's per-site-mean loss on a two-site minibatch. -/
theorem specLoss_pair (k : ℕ) (s t : Site) :
    specLoss k [s, t] = -(siteLogProb k s + siteLogProb k t) / 2 := by
  unfold specLoss
  simp only [List.map_cons, List.map_nil, List.sum_cons, List.sum_nil, List.length_cons,
    List.length_nil]
  norm_num

/-- C1 (code bug): on the mixed minibatch
`[{psi := 1/2, p := 1/2, y := 1}, {psi := 1/3, p := 1/2, y := 0}]` with
`k = 1`, the loss the training step computes differs from the negative mean
of the per-site log-likelihoods: broadcasting mixes site 1's marginal branch
into site 2's masked term. -/
theorem loss_not_neg_mean_per_site :
    codeLoss 1 [⟨1/2, 1/2, 1⟩, ⟨1/3, 1/2, 0⟩] ≠
      specLoss 1 [⟨1/2, 1/2, 1⟩, ⟨1/3, 1/2, 0⟩] := by
  have hm1 : lp_maybe_absent (1/2 : ℝ) (1/2) 1 1 = Real.log (3/4) := by
    unfold lp_maybe_absent
    rw [logsumexp2_eq,
      exp_lp_present (1/2) (1/2) 1 1 (by norm_num) (by norm_num) (by norm_num) (le_refl 1),
      Real.exp_log (by norm_num : (0 : ℝ) < 1 - 1/2)]
    norm_num [Nat.choose_self]
  have hm2 : lp_maybe_absent (1/3 : ℝ) (1/2) 1 0 = Real.log (5/6) := by
    unfold lp_maybe_absent
    rw [logsumexp2_eq,
      exp_lp_present (1/3) (1/2) 1 0 (by norm_num) (by norm_num) (by norm_num) (Nat.zero_le 1),
      Real.exp_log (by norm_num : (0 : ℝ) < 1 - 1/3)]
    norm_num
  intro h
  rw [codeLoss_pair, specLoss_pair] at h
  have hdp1 : dpMask ⟨1/2, 1/2, 1⟩ = 1 := by simp [dpMask]
  have hma1 : maMask ⟨1/2, 1/2, 1⟩ = 0 := by simp [maMask]
  have hdp2 : dpMask ⟨1/3, 1/2, 0⟩ = 0 := by simp [dpMask]
  have hma2 : maMask ⟨1/3, 1/2, 0⟩ = 1 := by simp [maMask]
  have hs1 : siteMaybeAbsentLP 1 ⟨1/2, 1/2, 1⟩ = Real.log (3/4) := hm1
  have hs2 : siteMaybeAbsentLP 1 ⟨1/3, 1/2, 0⟩ = Real.log (5/6) := hm2
  rw [siteLogProb, siteLogProb, hdp1, hma1, hdp2, hma2, hs1, hs2] at h
  have hlog : Real.log (3/4) = Real.log (5/6) := by linarith
  have h34 : (3/4 : ℝ) = 5/6 :=
    Real.log_injOn_pos (by norm_num : (3/4 : ℝ) ∈ Set.Ioi 0)
      (by norm_num : (5/6 : ℝ) ∈ Set.Ioi 0) hlog
  norm_num at h34

/-! ## C5: no clamping before logarithms

The training cell applies `torch.log` directly to `psi_i`, `1 - psi_i` and
(inside `Binomial.log_prob`) to `p_i` and `1 - p_i`; no `clamp` appears
anywhere in the notebook.  We show the evaluator does not factor through an
epsilon-clamp, then prove what does hold: the raw probabilities are passed to
`log` unclamped. -/

/-- Clamping to the epsilon-bounded interval `[eps, 1 - eps]`. -/
noncomputable def clampProb (eps x : ℝ) : ℝ := max eps (min x (1 - eps))

/-- Evaluating `logBinomPMF` with `k = y = 0` vanishes for every probability argument. -/
theorem logBinomPMF_zero (q : ℝ) : logBinomPMF 0 0 q = 0 := by
  unfold logBinomPMF
  norm_num

/-- C5 counterexample: there is no epsilon-clamp through which the evaluator's
`lp_present` factors; it reads its probability inputs unclamped. -/
theorem no_clamping_counterexample :
    ¬ ∃ eps : ℝ, 0 < eps ∧ eps < 1/2 ∧
      ∀ (psi p : ℝ) (k y : ℕ),
        lp_present psi p k y = lp_present (clampProb eps psi) (clampProb eps p) k y := by
  rintro ⟨eps, he0, he12, hall⟩
  have h := hall (eps/2) (1/2) 0 0
  have hcl : clampProb eps (eps/2) = eps := by
    unfold clampProb
    rw [min_eq_left (by linarith), max_eq_left (by linarith)]
  unfold lp_present at h
  rw [logBinomPMF_zero, logBinomPMF_zero, hcl] at h
  have hlog : Real.log (eps/2) = Real.log eps := by linarith
  have heq : eps/2 = eps :=
    Real.log_injOn_pos (Set.mem_Ioi.mpr (by linarith))
      (Set.mem_Ioi.mpr he0) hlog
  linarith

/-- C5 amended: the evaluator performs no clamping — for every epsilon there
is a valid probability input in `(0,1)` on which the evaluator's output
differs from the epsilon-clamped evaluator's output. -/
theorem evaluator_unclamped (eps : ℝ) (he0 : 0 < eps) (he12 : eps < 1/2) :
    ∃ psi : ℝ, 0 < psi ∧ psi < 1 ∧
      lp_present psi (1/2) 0 0 ≠
        lp_present (clampProb eps psi) (clampProb eps (1/2)) 0 0 := by
  refine ⟨eps/2, by linarith, by linarith, ?_⟩
  have hcl : clampProb eps (eps/2) = eps := by
    unfold clampProb
    rw [min_eq_left (by linarith), max_eq_left (by linarith)]
  unfold lp_present
  rw [logBinomPMF_zero, logBinomPMF_zero, hcl, add_zero, add_zero]
  exact ne_of_lt (Real.log_lt_log (by linarith) (by linarith))

/-- Witness for the amended C5 at `eps = 1/4`. -/
theorem evaluator_unclamped_witness :
    ∃ psi : ℝ, 0 < psi ∧ psi < 1 ∧
      lp_present psi (1/2) 0 0 ≠
        lp_present (clampProb (1/4) psi) (clampProb (1/4) (1/2)) 0 0 :=
  evaluator_unclamped (1/4) (by norm_num) (by norm_num)

/-! ## C6: configuration is never validated

Cell 3 binds `n = 100`, `k = 20`; cell 16 binds `n_epoch = 200`; cell 18
binds `batch_size = 32` in `params`.  No cell checks any of these values:
data generation and training proceed unconditionally.  The configuration
acceptance step is therefore embedded as one that always succeeds. -/

/-- The scalar configuration surface the spec names. -/
structure Config where
  n : ℤ
  k : ℤ
  batchSize : ℤ
  nEpoch : ℤ

/-- The spec's validity constraints: `n > 0`, `k > 0`, `batch size ≤ n`,
`epoch count ≥ 0`. -/
def validConfig (c : Config) : Prop :=
  0 < c.n ∧ 0 < c.k ∧ c.batchSize ≤ c.n ∧ 0 ≤ c.nEpoch

/-- The configuration the notebook hard-codes. -/
def notebookConfig : Config := ⟨100, 20, 32, 200⟩

/-- The notebook's configuration handling: constants are bound and used
directly, with no validation before data generation or training. -/
def configCheck (c : Config) : Except String Config := Except.ok c

/-- C6 counterexample: at the invalid configuration `n = 0`, the program
accepts the configuration (no error is produced) instead of failing fast. -/
theorem config_not_validated_counterexample :
    configCheck ⟨0, 20, 32, 200⟩ = Except.ok ⟨0, 20, 32, 200⟩ ∧
      ¬ validConfig ⟨0, 20, 32, 200⟩ :=
  ⟨rfl, fun h => absurd h.1 (lt_irrefl 0)⟩

/-- C6 amended: the program performs no configuration validation at all —
every configuration is accepted — and the hard-coded configuration happens to
satisfy the spec's constraints, so invalid values never arise in the run. -/
theorem config_no_validation :
    (∀ c : Config, configCheck c = Except.ok c) ∧ validConfig notebookConfig :=
  ⟨fun _ => rfl, ⟨by norm_num [notebookConfig], by norm_num [notebookConfig],
    by norm_num [notebookConfig], by norm_num [notebookConfig]⟩⟩

/-! ## Sampling primitives of the data-generation cells

The pseudo-random source is modelled as an explicit stream of real variates.
A Bernoulli draw is inverse-transform sampling from a uniform variate; a
binomial draw with `total_count = k` is the count of `k` such Bernoulli
trials. -/

/-- A draw `torch.distributions.bernoulli.Bernoulli(probs=q).sample()` driven by a
uniform variate `u ∈ [0,1)`: the draw is `1` iff `u < q`. -/
noncomputable def bernoulliSample (q u : ℝ) : ℝ := if u < q then 1 else 0

/-- A draw of `torch.distributions.binomial.Binomial(total_count=k, probs=q).sample()`
driven by uniform variates `u 0, ..., u (k-1)`: the number of the `k`
Bernoulli(q) trials that succeed. -/
noncomputable def binomialSample (k : ℕ) (q : ℝ) (u : ℕ → ℝ) : ℕ :=
  (Finset.range k).sum (fun i => if u i < q then 1 else 0)

/-! ## C7: bounds on the simulated counts -/

/-- C7: for every site, with `z ~ Bernoulli(psi)` and
`y ~ Binomial(k, p * z)` as in the simulation cell, the count satisfies
`0 ≤ y ≤ k`, and `z = 0` forces `y = 0` deterministically (the success
probability `p * z` collapses to `0`).  The uniform variates driving the
binomial draw are nonnegative, as uniform variates on `[0,1)` are. -/
theorem generator_count_bounds (psi p : ℝ) (k : ℕ) (u0 : ℝ) (u : ℕ → ℝ)
    (hu : ∀ i, 0 ≤ u i) :
    0 ≤ binomialSample k (p * bernoulliSample psi u0) u ∧
    binomialSample k (p * bernoulliSample psi u0) u ≤ k ∧
    (bernoulliSample psi u0 = 0 → binomialSample k (p * bernoulliSample psi u0) u = 0) := by
  refine ⟨Nat.zero_le _, ?_, ?_⟩
  · calc binomialSample k (p * bernoulliSample psi u0) u
        ≤ (Finset.range k).sum (fun _ => 1) := by
          unfold binomialSample
          exact Finset.sum_le_sum (fun i _ => by split <;> norm_num)
      _ = k := by simp
  · intro hz
    rw [hz, mul_zero]
    unfold binomialSample
    exact Finset.sum_eq_zero (fun i _ => if_neg (not_lt.mpr (hu i)))

/-- Witness for C7 at `psi = p = 1/2`, `k = 2`, all variates `1/2`. -/
theorem generator_count_bounds_witness :
    0 ≤ binomialSample 2 ((1/2) * bernoulliSample (1/2) (1/2)) (fun _ => 1/2) ∧
    binomialSample 2 ((1/2) * bernoulliSample (1/2) (1/2)) (fun _ => 1/2) ≤ 2 ∧
    (bernoulliSample (1/2) (1/2) = 0 →
      binomialSample 2 ((1/2) * bernoulliSample (1/2) (1/2)) (fun _ => 1/2) = 0) :=
  generator_count_bounds (1/2) (1/2) 2 (1/2) (fun _ => 1/2) (fun _ => by norm_num)

/-! ## C8: the neural network `Net` -/

/-- The function `torch.sigmoid`. -/
noncomputable def sigmoid (t : ℝ) : ℝ := 1 / (1 + Real.exp (-t))

/-- The function `torch.nn.functional.elu` with the default `alpha = 1`. -/
noncomputable def elu (t : ℝ) : ℝ := if 0 < t then t else Real.exp t - 1

/-- The parameters of the notebook's `Net`: `fc1 = nn.Linear(1, 64)` and
`fc2 = nn.Linear(64, 2)`. -/
structure Net where
  fc1Weight : Fin 64 → ℝ
  fc1Bias : Fin 64 → ℝ
  fc2Weight : Fin 2 → Fin 64 → ℝ
  fc2Bias : Fin 2 → ℝ

/-- The method `Net.forward` on one covariate row:
`x = F.elu(self.fc1(x)); output = torch.sigmoid(self.fc2(x))`, returning
`(psi, p) = (output[:, 0], output[:, 1])`. -/
noncomputable def Net.forward (net : Net) (x : ℝ) : ℝ × ℝ :=
  let h : Fin 64 → ℝ := fun j => elu (net.fc1Weight j * x + net.fc1Bias j)
  let out : Fin 2 → ℝ := fun i => sigmoid ((∑ j : Fin 64, net.fc2Weight i j * h j) + net.fc2Bias i)
  (out 0, out 1)

/-- The batched forward pass: the linear layers act row-wise on the
`(b, 1)` covariate tensor. -/
noncomputable def Net.forwardBatch (net : Net) (xs : List ℝ) : List (ℝ × ℝ) :=
  xs.map net.forward

/-- The sigmoid output layer lands strictly inside `(0, 1)`. -/
theorem sigmoid_mem_Ioo (t : ℝ) : sigmoid t ∈ Set.Ioo (0 : ℝ) 1 := by
  have he : 0 < Real.exp (-t) := Real.exp_pos (-t)
  constructor
  · unfold sigmoid
    positivity
  · unfold sigmoid
    rw [div_lt_one (by linarith)]
    linarith

/-- C8: for every parameter setting and every batch of covariates, each pair
`(psi, p)` returned by the forward pass has both components strictly inside
`(0, 1)`. -/
theorem net_forward_in_unit_interval (net : Net) (xs : List ℝ) :
    ∀ q ∈ net.forwardBatch xs,
      q.1 ∈ Set.Ioo (0 : ℝ) 1 ∧ q.2 ∈ Set.Ioo (0 : ℝ) 1 := by
  intro q hq
  unfold Net.forwardBatch at hq
  rcases List.mem_map.mp hq with ⟨x, _, hx⟩
  rw [← hx]
  exact ⟨sigmoid_mem_Ioo _, sigmoid_mem_Ioo _⟩

/-- Witness for C8: the zero-initialised network on the singleton batch `[0]`. -/
theorem net_forward_in_unit_interval_witness :
    (Net.forward ⟨fun _ => 0, fun _ => 0, fun _ _ => 0, fun _ => 0⟩ 0).1 ∈
        Set.Ioo (0 : ℝ) 1 ∧
      (Net.forward ⟨fun _ => 0, fun _ => 0, fun _ _ => 0, fun _ => 0⟩ 0).2 ∈
        Set.Ioo (0 : ℝ) 1 :=
  net_forward_in_unit_interval ⟨fun _ => 0, fun _ => 0, fun _ _ => 0, fun _ => 0⟩ [0]
    (Net.forward ⟨fun _ => 0, fun _ => 0, fun _ _ => 0, fun _ => 0⟩ 0)
    (by simp [Net.forwardBatch])

/-! ## C9: the data generator and its determinism

Cells 3 and 5 of the notebook, with the global torch generator modelled as a
stream `r : ℕ → ℝ` of variates consumed left to right in program order:
`n` uniform draws for the covariates (then sorted ascending), three normal
draws for `p`'s quadratic logit curve, three for `psi`'s, one uniform variate
per site for the Bernoulli occupancy draw, and `k` uniform variates per site
for the binomial count draw. -/

/-- The generation procedure of cells 3 and 5: returns the sorted covariates
`x`, the latent states `z`, and the counts `y`. -/
noncomputable def generate (n k : ℕ) (r : ℕ → ℝ) : List ℝ × List ℝ × List ℝ :=
  let x := List.insertionSort (· ≤ ·) ((List.range n).map r)
  let p := x.map (fun xi => sigmoid (r n + r (n+1) * xi + r (n+2) * xi^2))
  let psis := x.map (fun xi => sigmoid (r (n+3) + r (n+4) * xi + r (n+5) * xi^2))
  let z := (List.range n).map (fun i => bernoulliSample (psis.getD i 0) (r (n + 6 + i)))
  let y := (List.range n).map (fun i =>
    (binomialSample k (p.getD i 0 * z.getD i 0) (fun t => r (2*n + 6 + i*k + t)) : ℝ))
  (x, z, y)

/-- C9: the generator is deterministic in its random source — two runs with
identical configuration `n, k` and identical random streams produce identical
covariate, latent-state and count sequences. -/
theorem generate_deterministic (n k : ℕ) (r₁ r₂ : ℕ → ℝ) (h : r₁ = r₂) :
    generate n k r₁ = generate n k r₂ := by
  rw [h]

/-- Witness for C9 at `n = k = 1` with the constant-zero stream. -/
theorem generate_deterministic_witness :
    generate 1 1 (fun _ => 0) = generate 1 1 (fun _ => 0) :=
  generate_deterministic 1 1 (fun _ => 0) (fun _ => 0) rfl

end Occupancy
